import Mathlib

/-!
Verification of a TF-IDF search engine (`main.py`).

Python strings are modelled as `List Char`.  The program stores
per-document token counts in `dict`s (insertion ordered, unique keys); we
model those dictionaries as association lists `List (List Char × Nat)`
with in-place increment (`dIncr`) and first-match lookup (`dget`).
Floating point arithmetic (`math.log`, `math.sqrt`, division) is modelled
over the reals.  Python's stable `list.sort` with `key=λx.x[0],
reverse=True` is modelled by insertion sort with the non-strict comparison
`y.1 ≤ x.1`, which is extensionally the unique stable descending sort by
first component.
-/

namespace TFIDF

/-- A Python string: a list of characters. -/
abbrev Str := List Char

/-- Lookup in a Python-dict model: value of the first (hence, with unique
keys, the only) entry whose key matches. `m[k]` / `k in m`. -/
def dget : List (Str × Nat) → Str → Option Nat
  | [], _ => none
  | (k', v) :: m, k => if k = k' then some v else dget m k

/-- Increment `m[k] += 1`, with `m[k] = 1` when the key is absent: an existing entry is
updated in place (dicts keep insertion order), a new key is appended. -/
def dIncr : List (Str × Nat) → Str → List (Str × Nat)
  | [], k => [(k, 1)]
  | (k', v) :: m, k => if k = k' then (k', v + 1) :: m else (k', v) :: dIncr m k

/-- The count stored for `k`, zero when absent. -/
def dcount (m : List (Str × Nat)) (k : Str) : Nat :=
  (dget m k).getD 0

/-- The apostrophe character. -/
def apos : Char := Char.ofNat 39

/-- Characters accepted into a token run by `tokenize`:
`re.match("[a-zA-Z0-9]", c)` succeeds, or `c` is `'`/`_`/`-`. -/
def tokenChar (c : Char) : Bool :=
  decide (Char.ofNat 97 ≤ c ∧ c ≤ Char.ofNat 122) ||
  decide (Char.ofNat 65 ≤ c ∧ c ≤ Char.ofNat 90) ||
  decide (Char.ofNat 48 ≤ c ∧ c ≤ Char.ofNat 57) ||
  c == apos || c == Char.ofNat 95 || c == Char.ofNat 45

/-- Characters for which Python's `c.strip()` is empty: the whitespace
characters (space, tab, newline, carriage return, vertical tab, form feed). -/
def pyWhitespace (c : Char) : Bool :=
  c == Char.ofNat 32 || c == Char.ofNat 9 || c == Char.ofNat 10 ||
  c == Char.ofNat 13 || c == Char.ofNat 11 || c == Char.ofNat 12

/-- ASCII lower-casing of a token, Python `token.lower()` restricted to the
ASCII tokens `tokenize` builds. -/
def lowerStr (s : Str) : Str :=
  s.map Char.toLower

/-- One iteration of the `for c in text` loop of `tokenize`: the state is
(emitted tokens, token run in progress). -/
def tokStep (st : List Str × Str) (c : Char) : List Str × Str :=
  if tokenChar c then
    (st.1, st.2 ++ [c])
  else
    let tokens := if st.2 = [] then st.1 else st.1 ++ [lowerStr st.2]
    if pyWhitespace c then (tokens, []) else (tokens ++ [[c]], [])

/-- The final `if token != "": tokens.append(token.lower())` of `tokenize`. -/
def flushTok (st : List Str × Str) : List Str :=
  if st.2 = [] then st.1 else st.1 ++ [lowerStr st.2]

/-- The token list built by the scanning loop of `tokenize`. -/
def tokenizeTokens (text : Str) : List Str :=
  flushTok (text.foldl tokStep ([], []))

/-- The final counting loop of `tokenize`: build a dict mapping tokens to
occurrence counts. -/
def countTokens (ts : List Str) : List (Str × Nat) :=
  ts.foldl (fun m t => dIncr m t) []

/-- Model of `TFIDF_Engine.tokenize`: scan the text, then count the tokens. -/
def tokenize (text : Str) : List (Str × Nat) :=
  countTokens (tokenizeTokens text)

/-- Modelled from the spec (reference scan of claim C2): a character that
extends a token run is ASCII alphanumeric, apostrophe, underscore or hyphen. -/
def refRunChar (c : Char) : Bool :=
  decide (Char.ofNat 48 ≤ c ∧ c ≤ Char.ofNat 57) ||
  decide (Char.ofNat 97 ≤ c ∧ c ≤ Char.ofNat 122) ||
  decide (Char.ofNat 65 ≤ c ∧ c ≤ Char.ofNat 90) ||
  c == apos || c == Char.ofNat 95 || c == Char.ofNat 45

/-- Modelled from the spec (reference scan of claim C2): accumulate a run
while `refRunChar` holds; on a breaking character emit the pending run
lower-cased (if non-empty) and the breaking character itself when it is
non-whitespace; at end of text flush the pending run. -/
def refScan : Str → Str → List Str
  | [], pending => if pending = [] then [] else [lowerStr pending]
  | c :: cs, pending =>
    if refRunChar c then refScan cs (pending ++ [c])
    else
      (if pending = [] then [] else [lowerStr pending]) ++
      (if pyWhitespace c then [] else [[c]]) ++
      refScan cs []

/-- Modelled from the spec (claim C2): count the tokens emitted by the
reference scan. -/
def refTokenize (text : Str) : List (Str × Nat) :=
  countTokens (refScan text [])

lemma refRunChar_eq_tokenChar (c : Char) : refRunChar c = tokenChar c := by
  simp only [refRunChar, tokenChar]
  cases h1 : decide (Char.ofNat 48 ≤ c ∧ c ≤ Char.ofNat 57) <;>
    cases h2 : decide (Char.ofNat 97 ≤ c ∧ c ≤ Char.ofNat 122) <;>
      cases h3 : decide (Char.ofNat 65 ≤ c ∧ c ≤ Char.ofNat 90) <;> simp

lemma foldl_tokStep_eq_refScan (cs : Str) :
    ∀ (tokens : List Str) (pending : Str),
      flushTok (cs.foldl tokStep (tokens, pending)) = tokens ++ refScan cs pending := by
  induction cs with
  | nil =>
    intro tokens pending
    simp only [List.foldl_nil, flushTok, refScan]
    split <;> simp
  | cons c cs ih =>
    intro tokens pending
    rw [List.foldl_cons, refScan]
    rw [refRunChar_eq_tokenChar]
    by_cases hc : tokenChar c
    · rw [if_pos hc]
      simp only [tokStep, hc, if_pos]
      exact ih tokens (pending ++ [c])
    · rw [if_neg hc]
      simp only [tokStep, hc, Bool.false_eq_true, if_false]
      by_cases hw : pyWhitespace c
      · simp only [hw, if_pos]
        rw [ih]
        by_cases hp : pending = [] <;> simp [hp]
      · simp only [hw, Bool.false_eq_true, if_false]
        rw [ih]
        by_cases hp : pending = [] <;> simp [hp]

lemma tokenizeTokens_eq_refScan (text : Str) :
    tokenizeTokens text = refScan text [] := by
  simpa [tokenizeTokens] using foldl_tokStep_eq_refScan text [] []

/-- The `Document` class: raw text, token counts, and the TF-IDF vector. -/
structure Document where
  text : Str
  terms : List (Str × Nat)
  term_vector : List ℝ

/-- The `TFIDF_Engine` class state.  `corpus_location` only drives file
I/O (`read_files`) and plays no part in the scoring pipeline. -/
structure TFIDF_Engine where
  documents : List Document
  N : ℕ
  df_table : List (Str × Nat)
  term_vector_words : List Str

/-- Model of `TFIDF_Engine.__init__`: the empty corpus state. -/
def TFIDF_Engine.init : TFIDF_Engine :=
  { documents := [], N := 0, df_table := [], term_vector_words := [] }

/-- The inner loop of `create_df_table` for one document:
`for term in doc.terms: df_table[term] += 1` (or `= 1`). -/
def dfAddDoc (df : List (Str × Nat)) (d : Document) : List (Str × Nat) :=
  d.terms.foldl (fun m kv => dIncr m kv.1) df

/-- Model of `TFIDF_Engine.create_df_table`: accumulate document frequencies over
all documents, then set `term_vector_words = list(df_table.keys())`. -/
def create_df_table (e : TFIDF_Engine) : TFIDF_Engine :=
  let df := e.documents.foldl dfAddDoc e.df_table
  { e with df_table := df, term_vector_words := df.map Prod.fst }

/-- The vector entry of `create_term_vector` for one vocabulary word:
`(1 + log(d.terms[term])) * log(N / df_table[term])` when the word occurs
in the document, `0` otherwise.  The `self.df_table[term]` lookup is total
here via `dcount`; for engines produced by `create_df_table` every
vocabulary word is a `df_table` key, so the zero default is never taken. -/
noncomputable def tfidf_entry (e : TFIDF_Engine) (d : Document) (term : Str) : ℝ :=
  match dget d.terms term with
  | some c => (1 + Real.log (c : ℝ)) * Real.log ((e.N : ℝ) / (dcount e.df_table term : ℝ))
  | none => 0

/-- Model of `TFIDF_Engine.create_term_vector`: rebuild `d.term_vector` with one
entry per vocabulary word, in vocabulary order. -/
noncomputable def create_term_vector (e : TFIDF_Engine) (d : Document) : Document :=
  { d with term_vector := e.term_vector_words.map (tfidf_entry e d) }

/-- Model of `TFIDF_Engine.create_term_vectors`: vectorize every stored document. -/
noncomputable def create_term_vectors (e : TFIDF_Engine) : TFIDF_Engine :=
  { e with documents := e.documents.map (create_term_vector e) }

/-- Dot product `sum(a * b for a, b in zip(v, w))`. -/
noncomputable def dotSum (v w : List ℝ) : ℝ :=
  ((v.zip w).map fun p => p.1 * p.2).sum

/-- Sum of squares `sum(a * a for a in v)`. -/
noncomputable def sqSum (v : List ℝ) : ℝ :=
  (v.map fun a => a * a).sum

/-- Model of `TFIDF_Engine.calculate_cosine_sim`: dot product over product of
Euclidean magnitudes, with result `0` when either magnitude is zero. -/
noncomputable def calculate_cosine_sim (d1 d2 : Document) : ℝ :=
  let dot_product := dotSum d1.term_vector d2.term_vector
  let magnitude_d1 := Real.sqrt (sqSum d1.term_vector)
  let magnitude_d2 := Real.sqrt (sqSum d2.term_vector)
  if magnitude_d1 = 0 ∨ magnitude_d2 = 0 then 0
  else dot_product / (magnitude_d1 * magnitude_d2)

/-- The comparison used to model `results.sort(key=lambda x: x[0],
reverse=True)`: non-strict descending order on the similarity score.
Python's sort is stable; insertion sort with this non-strict comparison is
the stable descending sort by first component. -/
def simDesc (x y : ℝ × ℕ) : Prop := y.1 ≤ x.1

noncomputable instance : DecidableRel simDesc :=
  fun a b => inferInstanceAs (Decidable (b.1 ≤ a.1))

instance : IsTotal (ℝ × ℕ) simDesc := ⟨fun a b => le_total b.1 a.1⟩

instance : IsTrans (ℝ × ℕ) simDesc := ⟨fun _ _ _ h1 h2 => le_trans h2 h1⟩

/-- Model of `TFIDF_Engine.get_results`: tokenize and vectorize the query, score
every document by cosine similarity with its index (`enumerate`), and sort
the (score, index) pairs by score descending. -/
noncomputable def get_results (e : TFIDF_Engine) (query : Str) : List (ℝ × ℕ) :=
  let query_doc : Document := { text := query, terms := tokenize query, term_vector := [] }
  let query_doc := create_term_vector e query_doc
  let results := e.documents.enum.map fun p => (calculate_cosine_sim query_doc p.2, p.1)
  List.insertionSort simDesc results

/-- Model of `TFIDF_Engine.create_term_vector` with the method receiver threaded
explicitly: the method assigns only to fields of its argument `d`, never to
fields of `self`, so the returned engine state is the input state. -/
noncomputable def create_term_vectorS (e : TFIDF_Engine) (d : Document) :
    TFIDF_Engine × Document :=
  (e, { d with term_vector := e.term_vector_words.map (tfidf_entry e d) })

/-- Model of `TFIDF_Engine.get_results` with the method receiver threaded
explicitly: the method reads `self.documents`, `self.N`, `self.df_table`
and `self.term_vector_words` but assigns to none of them. -/
noncomputable def get_resultsS (e : TFIDF_Engine) (query : Str) :
    List (ℝ × ℕ) × TFIDF_Engine :=
  let query_doc : Document := { text := query, terms := tokenize query, term_vector := [] }
  let p := create_term_vectorS e query_doc
  let e1 := p.1
  let query_doc := p.2
  let results := e1.documents.enum.map fun pr => (calculate_cosine_sim query_doc pr.2, pr.1)
  (List.insertionSort simDesc results, e1)

/-- The display loop of `query_loop`: `for i in range(5)` reads
`sim_scores[i]` unconditionally; `none` models the uncaught `IndexError`
raised when the ranked list has fewer than five entries. -/
noncomputable def query_top5 (e : TFIDF_Engine) (query : Str) : Option (List (ℝ × ℕ)) :=
  let sim_scores := get_results e query
  (List.range 5).mapM fun i => sim_scores[i]?

/-- C2: `tokenize` agrees with the reference scan of the specification on
every input, tokenizing the empty string yields an empty mapping, and
tokenizing "a, b" yields the mapping a ↦ 1, comma ↦ 1, b ↦ 1. -/
theorem tokenize_matches_reference_scan :
    (∀ text : Str, tokenize text = refTokenize text) ∧
    tokenize [] = [] ∧
    tokenize (String.toList "a, b") =
      [(String.toList "a", 1), ([Char.ofNat 44], 1), (String.toList "b", 1)] := by
  refine ⟨fun text => ?_, by decide, by decide⟩
  rw [tokenize, refTokenize, tokenizeTokens_eq_refScan]

/-- A document whose term vector has the single entry `1`. -/
noncomputable def dOne : Document :=
  { text := [], terms := [], term_vector := [1] }

/-- A document whose term vector has the single entry `0`. -/
noncomputable def dZero : Document :=
  { text := [], terms := [], term_vector := [0] }

/-- A one-word document, tokenized. -/
def docA : Document :=
  { text := String.toList "a", terms := tokenize (String.toList "a"), term_vector := [] }

/-- A one-document corpus holding `docA`, as left by `read_files`. -/
def engA : TFIDF_Engine :=
  { documents := [docA], N := 1, df_table := [], term_vector_words := [] }

/-- C4: cosine similarity is the dot product over the product of the
Euclidean magnitudes, is `0` whenever either magnitude is zero, and in
particular is `0` against a zero vector. -/
theorem calculate_cosine_sim_spec (d1 d2 : Document)
    (hlen : d1.term_vector.length = d2.term_vector.length) :
    (Real.sqrt (sqSum d1.term_vector) = 0 ∨ Real.sqrt (sqSum d2.term_vector) = 0 →
      calculate_cosine_sim d1 d2 = 0) ∧
    (Real.sqrt (sqSum d1.term_vector) ≠ 0 → Real.sqrt (sqSum d2.term_vector) ≠ 0 →
      calculate_cosine_sim d1 d2 =
        dotSum d1.term_vector d2.term_vector /
          (Real.sqrt (sqSum d1.term_vector) * Real.sqrt (sqSum d2.term_vector))) ∧
    ((∀ x ∈ d2.term_vector, x = 0) → calculate_cosine_sim d1 d2 = 0) := by
  refine ⟨fun h => ?_, fun h1 h2 => ?_, fun hz => ?_⟩
  · simp only [calculate_cosine_sim]
    rw [if_pos h]
  · simp only [calculate_cosine_sim]
    rw [if_neg (not_or.mpr ⟨h1, h2⟩)]
  · have hsq : sqSum d2.term_vector = 0 := by
      apply List.sum_eq_zero
      intro x hx
      rcases List.mem_map.mp hx with ⟨a, ha, rfl⟩
      rw [hz a ha, mul_zero]
    simp only [calculate_cosine_sim]
    rw [if_pos (Or.inr (by rw [hsq, Real.sqrt_zero]))]

/-- Witness for C4: concrete one-entry vectors, the second one zero. -/
theorem calculate_cosine_sim_spec_witness :
    (Real.sqrt (sqSum dOne.term_vector) = 0 ∨ Real.sqrt (sqSum dZero.term_vector) = 0 →
      calculate_cosine_sim dOne dZero = 0) ∧
    (Real.sqrt (sqSum dOne.term_vector) ≠ 0 → Real.sqrt (sqSum dZero.term_vector) ≠ 0 →
      calculate_cosine_sim dOne dZero =
        dotSum dOne.term_vector dZero.term_vector /
          (Real.sqrt (sqSum dOne.term_vector) * Real.sqrt (sqSum dZero.term_vector))) ∧
    ((∀ x ∈ dZero.term_vector, x = 0) → calculate_cosine_sim dOne dZero = 0) :=
  calculate_cosine_sim_spec dOne dZero rfl

/-- C6: after `create_term_vectors`, every stored document's term vector
has exactly one entry per vocabulary word, so all vectors have the same
length, the vocabulary size. -/
theorem create_term_vectors_length (e : TFIDF_Engine) (d : Document)
    (hd : d ∈ (create_term_vectors e).documents) :
    d.term_vector.length = (create_term_vectors e).term_vector_words.length := by
  rcases List.mem_map.mp hd with ⟨d0, _, rfl⟩
  simp [create_term_vectors, create_term_vector]

/-- Witness for C6: the one-document corpus `engA`. -/
theorem create_term_vectors_length_witness :
    (create_term_vector engA docA).term_vector.length =
      (create_term_vectors engA).term_vector_words.length :=
  create_term_vectors_length engA (create_term_vector engA docA)
    (by simp [create_term_vectors, engA])

/-- C7: an empty corpus produces an empty document-frequency table and an
empty vocabulary, and every query returns an empty result list (the idf
division is never reached). -/
theorem empty_corpus_safe (e : TFIDF_Engine)
    (hdocs : e.documents = []) (hN : e.N = 0) (hdf : e.df_table = []) :
    (create_df_table e).df_table = [] ∧
    (create_df_table e).term_vector_words = [] ∧
    ∀ query : Str, get_results (create_df_table e) query = [] := by
  have h1 : (create_df_table e).df_table = [] := by
    simp [create_df_table, hdocs, hdf]
  have h2 : (create_df_table e).term_vector_words = [] := by
    simp [create_df_table, hdocs, hdf]
  refine ⟨h1, h2, fun query => ?_⟩
  have hd : (create_df_table e).documents = [] := hdocs
  simp [get_results, hd, List.insertionSort]

/-- Witness for C7: the initial engine state. -/
theorem empty_corpus_safe_witness :
    (create_df_table TFIDF_Engine.init).df_table = [] ∧
    (create_df_table TFIDF_Engine.init).term_vector_words = [] ∧
    ∀ query : Str, get_results (create_df_table TFIDF_Engine.init) query = [] :=
  empty_corpus_safe TFIDF_Engine.init rfl rfl rfl

/-- C8: `get_results` reads but never assigns the engine fields: with the
method receiver threaded explicitly, the resulting engine state (documents
included) is exactly the input state, and the returned ranking is that of
the pure model. -/
theorem get_results_no_mutation (e : TFIDF_Engine) (query : Str) :
    (get_resultsS e query).2.documents = e.documents ∧
    (get_resultsS e query).2.N = e.N ∧
    (get_resultsS e query).2.df_table = e.df_table ∧
    (get_resultsS e query).2.term_vector_words = e.term_vector_words ∧
    (get_resultsS e query).1 = get_results e query :=
  ⟨rfl, rfl, rfl, rfl, rfl⟩

/-- C9: on a corpus with fewer than five documents the top-5 display loop
of `query_loop` reads past the end of the ranked list: with no documents,
the very first access `sim_scores[0]` is out of bounds (`none` models the
`IndexError`, which `query_loop` does not catch). -/
theorem query_top5_out_of_bounds :
    query_top5 TFIDF_Engine.init (String.toList "star") = none := by
  have h : get_results TFIDF_Engine.init (String.toList "star") = [] := by
    simp [get_results, TFIDF_Engine.init, List.insertionSort]
  simp only [query_top5]
  rw [h]
  rfl

lemma dget_dIncr (m : List (Str × Nat)) (k k' : Str) :
    dget (dIncr m k) k' = if k' = k then some (dcount m k + 1) else dget m k' := by
  induction m with
  | nil =>
    by_cases h : k' = k <;> simp [dIncr, dget, dcount, h]
  | cons a m ih =>
    obtain ⟨ka, va⟩ := a
    by_cases hk : k = ka
    · subst hk
      by_cases h' : k' = k <;> simp [dIncr, dget, dcount, h']
    · by_cases h' : k' = ka
      · subst h'
        have hne : ¬k' = k := fun h => hk h.symm
        simp [dIncr, dget, hk, hne]
      · by_cases h'' : k' = k
        · subst h''
          simp [dIncr, dget, dcount, hk, h', ih]
        · simp [dIncr, dget, hk, h', h'', ih]

lemma dcount_dIncr (m : List (Str × Nat)) (k k' : Str) :
    dcount (dIncr m k) k' = dcount m k' + (if k' = k then 1 else 0) := by
  rw [dcount, dget_dIncr]
  by_cases h : k' = k <;> simp [h, dcount]

lemma dget_isSome_iff_mem_keys (m : List (Str × Nat)) (k : Str) :
    (dget m k).isSome ↔ k ∈ m.map Prod.fst := by
  induction m with
  | nil => simp [dget]
  | cons a m ih =>
    obtain ⟨ka, va⟩ := a
    by_cases h : k = ka <;> simp [dget, h, ih]

lemma mem_keys_dIncr (m : List (Str × Nat)) (k k' : Str) :
    k' ∈ (dIncr m k).map Prod.fst ↔ k' = k ∨ k' ∈ m.map Prod.fst := by
  rw [← dget_isSome_iff_mem_keys, ← dget_isSome_iff_mem_keys, dget_dIncr]
  by_cases h : k' = k <;> simp [h]

lemma dcount_foldl_dIncr (ks : List Str) (m : List (Str × Nat)) (k : Str) :
    dcount (ks.foldl (fun m t => dIncr m t) m) k =
      dcount m k + ks.countP (fun t => decide (t = k)) := by
  induction ks generalizing m with
  | nil => simp
  | cons t ks ih =>
    rw [List.foldl_cons, ih, dcount_dIncr, List.countP_cons]
    by_cases h : k = t
    · subst h
      simp
      omega
    · have h2 : ¬t = k := fun hh => h hh.symm
      simp [h, h2]

lemma mem_keys_foldl_dIncr (ks : List Str) (m : List (Str × Nat)) (k : Str) :
    k ∈ ((ks.foldl (fun m t => dIncr m t) m).map Prod.fst) ↔
      k ∈ m.map Prod.fst ∨ k ∈ ks := by
  induction ks generalizing m with
  | nil => simp
  | cons t ks ih =>
    rw [List.foldl_cons, ih, mem_keys_dIncr, List.mem_cons]
    tauto

lemma dfAddDoc_eq_foldl_keys (df : List (Str × Nat)) (d : Document) :
    dfAddDoc df d = (d.terms.map Prod.fst).foldl (fun m t => dIncr m t) df :=
  (List.foldl_map _ _ _ _).symm

lemma countP_eq_ite_of_nodup (l : List Str) (k : Str) (h : l.Nodup) :
    l.countP (fun t => decide (t = k)) = if k ∈ l then 1 else 0 := by
  induction l with
  | nil => simp
  | cons a l ih =>
    rcases List.nodup_cons.mp h with ⟨hal, hl⟩
    rw [List.countP_cons]
    by_cases hak : a = k
    · subst hak
      simp [ih hl, hal]
    · have hka : ¬k = a := fun hh => hak hh.symm
      simp [hak, hka, List.mem_cons, ih hl]

lemma dcount_foldl_dfAddDoc (docs : List Document) (df0 : List (Str × Nat)) (k : Str)
    (h : ∀ d ∈ docs, (d.terms.map Prod.fst).Nodup) :
    dcount (docs.foldl dfAddDoc df0) k =
      dcount df0 k + docs.countP (fun d => decide (k ∈ d.terms.map Prod.fst)) := by
  induction docs generalizing df0 with
  | nil => simp
  | cons d docs ih =>
    rw [List.foldl_cons, ih _ (fun d' hd' => h d' (List.mem_cons_of_mem _ hd')),
      dfAddDoc_eq_foldl_keys, dcount_foldl_dIncr,
      countP_eq_ite_of_nodup _ _ (h d (List.mem_cons_self _ _)), List.countP_cons]
    by_cases hm : k ∈ d.terms.map Prod.fst <;> simp [hm] <;> omega

lemma mem_keys_foldl_dfAddDoc (docs : List Document) (df0 : List (Str × Nat)) (k : Str) :
    k ∈ ((docs.foldl dfAddDoc df0).map Prod.fst) ↔
      k ∈ df0.map Prod.fst ∨ ∃ d ∈ docs, k ∈ d.terms.map Prod.fst := by
  induction docs generalizing df0 with
  | nil => simp
  | cons d docs ih =>
    rw [List.foldl_cons, ih, dfAddDoc_eq_foldl_keys, mem_keys_foldl_dIncr]
    simp only [List.mem_cons]
    constructor
    · rintro ((h | h) | ⟨d', hd', hk⟩)
      · exact Or.inl h
      · exact Or.inr ⟨d, Or.inl rfl, h⟩
      · exact Or.inr ⟨d', Or.inr hd', hk⟩
    · rintro (h | ⟨d', hd' | hd', hk⟩)
      · exact Or.inl (Or.inl h)
      · subst hd'
        exact Or.inl (Or.inr hk)
      · exact Or.inr ⟨d', hd', hk⟩

/-- C5: after `create_df_table` on a fresh table, the `df_table` keys are
exactly the vocabulary words, and each vocabulary word's document
frequency counts the documents containing it at least once, hence lies
between `1` and `N`. -/
theorem create_df_table_invariants (e : TFIDF_Engine)
    (hN : e.N = e.documents.length) (hdf : e.df_table = [])
    (hterms : ∀ d ∈ e.documents, (d.terms.map Prod.fst).Nodup) :
    (∀ k : Str, (dget (create_df_table e).df_table k).isSome ↔
        k ∈ (create_df_table e).term_vector_words) ∧
    (∀ t ∈ (create_df_table e).term_vector_words,
      dcount (create_df_table e).df_table t =
        e.documents.countP (fun d => decide (t ∈ d.terms.map Prod.fst)) ∧
      1 ≤ dcount (create_df_table e).df_table t ∧
      dcount (create_df_table e).df_table t ≤ (create_df_table e).N) := by
  have hdft : (create_df_table e).df_table = e.documents.foldl dfAddDoc e.df_table := rfl
  have htvw : (create_df_table e).term_vector_words =
      ((create_df_table e).df_table).map Prod.fst := rfl
  have heN : (create_df_table e).N = e.N := rfl
  constructor
  · intro k
    rw [htvw]
    exact dget_isSome_iff_mem_keys _ k
  · intro t ht
    have hcount : dcount (create_df_table e).df_table t =
        e.documents.countP (fun d => decide (t ∈ d.terms.map Prod.fst)) := by
      rw [hdft, dcount_foldl_dfAddDoc _ _ _ hterms, hdf]
      simp [dcount, dget]
    refine ⟨hcount, ?_, ?_⟩
    · rw [htvw, hdft, mem_keys_foldl_dfAddDoc, hdf] at ht
      rcases ht with h | ⟨d, hd, hk⟩
      · simp at h
      · rw [hcount]
        have : 0 < e.documents.countP (fun d => decide (t ∈ d.terms.map Prod.fst)) :=
          List.countP_pos_iff.mpr ⟨d, hd, by simpa using hk⟩
        omega
    · rw [hcount, heN, hN]
      exact List.countP_le_length _

/-- Witness for C5: the one-document corpus `engA`. -/
theorem create_df_table_invariants_witness :
    (∀ k : Str, (dget (create_df_table engA).df_table k).isSome ↔
        k ∈ (create_df_table engA).term_vector_words) ∧
    (∀ t ∈ (create_df_table engA).term_vector_words,
      dcount (create_df_table engA).df_table t =
        engA.documents.countP (fun d => decide (t ∈ d.terms.map Prod.fst)) ∧
      1 ≤ dcount (create_df_table engA).df_table t ∧
      dcount (create_df_table engA).df_table t ≤ (create_df_table engA).N) :=
  create_df_table_invariants engA rfl rfl (by decide)

/-- C1: for an index built by `create_df_table`, the vector built by
`create_term_vector` has, at the position of each vocabulary word, the
entry `(1 + ln c) * ln (N / df)` where `c` is the word's count in the
document and `df` its (defined) document frequency, and the entry `0` at
the positions of vocabulary words absent from the document. -/
theorem create_term_vector_entries (e0 : TFIDF_Engine) (d : Document) (i : ℕ)
    (hi : i < (create_df_table e0).term_vector_words.length) :
    ∃ dfw : Nat,
      dget (create_df_table e0).df_table
        ((create_df_table e0).term_vector_words.get ⟨i, hi⟩) = some dfw ∧
      (∀ c : Nat,
        dget d.terms ((create_df_table e0).term_vector_words.get ⟨i, hi⟩) = some c →
        (create_term_vector (create_df_table e0) d).term_vector[i]? =
          some ((1 + Real.log (c : ℝ)) *
            Real.log (((create_df_table e0).N : ℝ) / (dfw : ℝ)))) ∧
      (dget d.terms ((create_df_table e0).term_vector_words.get ⟨i, hi⟩) = none →
        (create_term_vector (create_df_table e0) d).term_vector[i]? = some 0) := by
  have htvw : (create_df_table e0).term_vector_words =
      ((create_df_table e0).df_table).map Prod.fst := rfl
  have hwmem : (create_df_table e0).term_vector_words.get ⟨i, hi⟩ ∈
      ((create_df_table e0).df_table).map Prod.fst := by
    rw [← htvw]
    exact List.get_mem _ _ _
  obtain ⟨dfw, hdfw⟩ :=
    Option.isSome_iff_exists.mp ((dget_isSome_iff_mem_keys _ _).mpr hwmem)
  have hvec : (create_term_vector (create_df_table e0) d).term_vector[i]? =
      some (tfidf_entry (create_df_table e0) d
        ((create_df_table e0).term_vector_words.get ⟨i, hi⟩)) := by
    show (((create_df_table e0).term_vector_words.map
        (tfidf_entry (create_df_table e0) d))[i]?) = _
    rw [List.getElem?_map, List.getElem?_eq_getElem hi]
    rfl
  refine ⟨dfw, hdfw, fun c hc => ?_, fun hc => ?_⟩
  · rw [hvec, tfidf_entry, hc]
    have : dcount (create_df_table e0).df_table
        ((create_df_table e0).term_vector_words.get ⟨i, hi⟩) = dfw := by
      rw [dcount, hdfw]
      rfl
    rw [this]
  · rw [hvec, tfidf_entry, hc]

/-- Witness for C1: the one-document corpus `engA` at vocabulary index 0. -/
theorem create_term_vector_entries_witness :
    ∃ dfw : Nat,
      dget (create_df_table engA).df_table (String.toList "a") = some dfw ∧
      (∀ c : Nat, dget docA.terms (String.toList "a") = some c →
        (create_term_vector (create_df_table engA) docA).term_vector[0]? =
          some ((1 + Real.log (c : ℝ)) *
            Real.log (((create_df_table engA).N : ℝ) / (dfw : ℝ)))) ∧
      (dget docA.terms (String.toList "a") = none →
        (create_term_vector (create_df_table engA) docA).term_vector[0]? = some 0) :=
  create_term_vector_entries engA docA 0 (by decide)

/-- Strict ranking order on (score, document index) pairs: strictly
greater score, or equal score and strictly smaller document index. -/
def rankOrder (x y : ℝ × ℕ) : Prop :=
  y.1 < x.1 ∨ (x.1 = y.1 ∧ x.2 < y.2)

lemma get_results_eq (e : TFIDF_Engine) (query : Str) :
    get_results e query = List.insertionSort simDesc
      (e.documents.enum.map fun p =>
        (calculate_cosine_sim
          (create_term_vector e { text := query, terms := tokenize query, term_vector := [] })
          p.2, p.1)) := rfl

lemma pairwise_orderedInsert_stable (a : ℝ × ℕ) (L : List (ℝ × ℕ))
    (hL : L.Pairwise rankOrder) (ha : ∀ b ∈ L, a.2 < b.2) :
    (List.orderedInsert simDesc a L).Pairwise rankOrder := by
  induction L with
  | nil => simp [List.orderedInsert]
  | cons b L ih =>
    rcases List.pairwise_cons.mp hL with ⟨hbL, hLp⟩
    by_cases h : simDesc a b
    · rw [List.orderedInsert, if_pos h]
      refine List.pairwise_cons.mpr ⟨?_, hL⟩
      intro c hc
      rcases List.mem_cons.mp hc with rfl | hcL
      · rcases lt_or_eq_of_le h with hlt | heq
        · exact Or.inl hlt
        · exact Or.inr ⟨heq.symm, ha c (List.mem_cons_self _ _)⟩
      · have hc1 : c.1 ≤ b.1 := by
          rcases hbL c hcL with h1 | ⟨h1, _⟩
          · exact le_of_lt h1
          · exact le_of_eq h1.symm
        rcases lt_or_eq_of_le (le_trans hc1 h) with hlt | heq
        · exact Or.inl hlt
        · exact Or.inr ⟨heq.symm, ha c (List.mem_cons_of_mem _ hcL)⟩
    · rw [List.orderedInsert, if_neg h]
      refine List.pairwise_cons.mpr
        ⟨?_, ih hLp (fun c hc => ha c (List.mem_cons_of_mem _ hc))⟩
      intro c hc
      rcases (List.mem_orderedInsert simDesc).mp hc with rfl | hcL
      · exact Or.inl (lt_of_not_le h)
      · exact hbL c hcL

lemma pairwise_insertionSort_stable (L : List (ℝ × ℕ))
    (hidx : L.Pairwise fun x y => x.2 < y.2) :
    (List.insertionSort simDesc L).Pairwise rankOrder := by
  induction L with
  | nil => simp [List.insertionSort]
  | cons a L ih =>
    rcases List.pairwise_cons.mp hidx with ⟨haL, hLp⟩
    rw [show List.insertionSort simDesc (a :: L) =
        List.orderedInsert simDesc a (List.insertionSort simDesc L) from rfl]
    refine pairwise_orderedInsert_stable a _ (ih hLp) ?_
    intro b hb
    exact haL b ((List.perm_insertionSort simDesc L).mem_iff.mp hb)

/-- C3: `get_results` returns one (score, index) pair per document: the
list has one entry per document, its document indices are a permutation of
`0, …, N-1`, and it is sorted non-increasing by similarity score. -/
theorem get_results_ranked (e : TFIDF_Engine) (query : Str) :
    (get_results e query).length = e.documents.length ∧
    ((get_results e query).map Prod.snd).Perm (List.range e.documents.length) ∧
    (get_results e query).Pairwise (fun x y => y.1 ≤ x.1) := by
  rw [get_results_eq]
  refine ⟨?_, ?_, ?_⟩
  · rw [List.length_insertionSort, List.length_map, List.enum_length]
  · have hperm := (List.perm_insertionSort simDesc
      (e.documents.enum.map fun p =>
        (calculate_cosine_sim
          (create_term_vector e { text := query, terms := tokenize query, term_vector := [] })
          p.2, p.1))).map Prod.snd
    rw [List.map_map,
      show (Prod.snd ∘ fun p : ℕ × Document =>
        (calculate_cosine_sim
          (create_term_vector e { text := query, terms := tokenize query, term_vector := [] })
          p.2, p.1)) = Prod.fst from rfl,
      List.enum_map_fst] at hperm
    exact hperm
  · exact List.sorted_insertionSort simDesc _

/-- C10: ties in `get_results` are broken by document index: any earlier
result pair has a strictly greater score than a later one, or the same
score and a strictly smaller document index (the scores are generated in
document order and the descending sort is stable). -/
theorem get_results_tiebreak (e : TFIDF_Engine) (query : Str) :
    (get_results e query).Pairwise rankOrder := by
  rw [get_results_eq]
  apply pairwise_insertionSort_stable
  rw [List.pairwise_map]
  have h := List.pairwise_lt_range e.documents.length
  rw [← List.enum_map_fst, List.pairwise_map] at h
  exact h

end TFIDF
